import Mathlib

/-
Verification development for the point-cloud writer (pc_writer.rs).
The writer packetizes enqueued points into data packets, enforces the
16-bit packet length ceiling with 4-byte alignment, accumulates the
section length across packets, and backpatches the section header on
finalize.  Collaborator modules that are outside the given source
(byte stream buffers, header records, the paged storage stream) are
modelled from the specification, as documented on each definition.
-/

deriving instance DecidableEq for Except

namespace E57

/-- Wrap-around modulus of the 64-bit unsigned integers used by the code
for section lengths and point counts. -/
def U64 : Nat := 2 ^ 64

/-- Sum of a list of naturals, written as the left fold the code uses when
it accumulates buffer sizes. -/
def natSum (l : List Nat) : Nat := l.foldl (· + ·) 0

/-- Rounding of the packet length up to the next multiple of 4, exactly as
computed in write_buffer_to_disk: if the length is not 4-aligned, the
missing difference is added. -/
def roundUp4 (n : Nat) : Nat := if n % 4 = 0 then n else n + (4 - n % 4)

/-- Modelled from the spec: a field data type supplies a bit width; the
bit-level value-to-bits mapping is an external collaborator (out of
scope), so only the bit width is modelled. -/
structure RecordDataType where
  bit_size : Nat
deriving DecidableEq

/-- A prototype entry: a named field with its data type (pc_writer.rs uses
Record with name and data_type). -/
structure Record where
  name : String
  data_type : RecordDataType
deriving DecidableEq

/-- Modelled from the spec: a point is a mapping from field names to raw
values; raw values themselves are opaque to the writer, so they are
modelled as naturals.  Lookup is by name. -/
abbrev RawPoint := List (String × Nat)

/-- Name lookup in a point, the model of RawPoint::get. -/
def RawPoint.get (p : RawPoint) (n : String) : Option Nat := List.lookup n p

/-- True when the point lacks a value for at least one prototype field. -/
def missesField (proto : List Record) (p : RawPoint) : Bool :=
  proto.any fun r => (p.get r.name).isNone

/-- Modelled from the spec: the Bit-Packing Field Buffer (ByteStreamOutBuffer,
bs_out.rs is not part of the given source).  Each write appends the
bit-width of the field to an internal bit cursor; only the bit count is
observable to the writer. -/
structure ByteStreamOutBuffer where
  bits : Nat
deriving DecidableEq

/-- A fresh, empty byte stream buffer. -/
def ByteStreamOutBuffer.new : ByteStreamOutBuffer := ⟨0⟩

/-- Modelled from the spec: the number of bytes produced when the buffer is
drained; any trailing partial byte is zero padded at drain time, so the
count is the bit count rounded up to whole bytes. -/
def ByteStreamOutBuffer.full_bytes (b : ByteStreamOutBuffer) : Nat := (b.bits + 7) / 8

/-- Modelled from the spec: writing one raw value appends exactly bit_size
bits to the target buffer; encoding failures for out-of-range values
belong to the out-of-scope collaborator and are not modelled (no claim
concerns EncodingError). -/
def RecordDataType.write (dt : RecordDataType) (_v : Nat) (b : ByteStreamOutBuffer) :
    ByteStreamOutBuffer := ⟨b.bits + dt.bit_size⟩

/-- Modelled from the spec: the compressed vector section header holds the
data offset and the section length (two u64 fields, cv_section.rs is not
part of the given source). -/
structure CompressedVectorSectionHeader where
  data_offset : Nat
  section_length : Nat
deriving DecidableEq

/-- Modelled from the spec: the on-disk size of the section header.  The
spec leaves the exact constant to the header collaborator; it is taken as
32 bytes (a fixed 4-aligned size); all claims are insensitive to the
exact value. -/
def CompressedVectorSectionHeader.SIZE : Nat := 32

/-- Modelled from the spec: the data packet header carries the restart
flag, the packet length (validated to fit 16 bits) and the byte stream
count (packet.rs is not part of the given source). -/
structure DataPacketHeader where
  comp_restart_flag : Bool
  packet_length : Nat
  bytestream_count : Nat
deriving DecidableEq

/-- Modelled from the spec: the on-disk size of the data packet header,
taken as 6 bytes; all claims are insensitive to the exact value. -/
def DataPacketHeader.SIZE : Nat := 6

/-- One write issued to the storage stream.  Header records are kept
structured; for byte stream payloads only the byte count is observable
(the encoded bits belong to the out-of-scope collaborator). -/
inductive WChunk where
  | sectionHeader (h : CompressedVectorSectionHeader)
  | packetHeader (h : DataPacketHeader)
  | sizeEntry (v : Nat)
  | stream (len : Nat)
  | pad (n : Nat)
deriving DecidableEq

/-- Byte size of one write. -/
def WChunk.size : WChunk → Nat
  | .sectionHeader _ => CompressedVectorSectionHeader.SIZE
  | .packetHeader _ => DataPacketHeader.SIZE
  | .sizeEntry _ => 2
  | .stream len => len
  | .pad n => n

/-- Modelled from the spec: the paged storage stream is an external
collaborator with physical_position, physical_seek, write and align; it
is modelled as an append-only log of writes tagged with the physical
position they were issued at, plus the current position. -/
structure PagedWriter where
  log : List (Nat × WChunk)
  pos : Nat
deriving DecidableEq

/-- Issue one write at the current position and advance the position. -/
def PagedWriter.writeChunk (w : PagedWriter) (c : WChunk) : PagedWriter :=
  { log := w.log ++ [(w.pos, c)], pos := w.pos + c.size }

/-- Issue a sequence of writes. -/
def PagedWriter.writeChunks (w : PagedWriter) (cs : List WChunk) : PagedWriter :=
  cs.foldl PagedWriter.writeChunk w

/-- Current physical position of the stream. -/
def PagedWriter.physical_position (w : PagedWriter) : Nat := w.pos

/-- Seek the stream to an absolute physical position. -/
def PagedWriter.physical_seek (w : PagedWriter) (o : Nat) : PagedWriter :=
  { w with pos := o }

/-- Modelled from the spec: align pads the stream with zero bytes up to the
next 4-byte boundary of the physical position (no write if already
aligned). -/
def PagedWriter.align (w : PagedWriter) : PagedWriter :=
  if w.pos % 4 = 0 then w else w.writeChunk (.pad (4 - w.pos % 4))

/-- The finalized section metadata record pushed for later XML generation
(only the fields pc_writer.rs fills in are modelled; the rest are
defaulted by the code). -/
structure PointCloud where
  guid : String
  records : Nat
  file_offset : Nat
  prototype : List Record
deriving DecidableEq

/-- Errors surfaced by the writer: a point missing a prototype field
(surfaced by invalid_err naming the field), an internal invariant
violation, and a Rust panic (used to model the unguarded division in
new). -/
inductive E57Error where
  | missingField (name : String)
  | internalError (msg : String)
  | panicErr (msg : String)
deriving DecidableEq

/-- The state of PointCloudWriter from pc_writer.rs: the stream, the shared
pointcloud list, the session guid, the section start offset, the running
section header, the prototype, the point count, the pending FIFO queue
(VecDeque modelled as a list with the front at the head) and the packet
capacity. -/
structure PointCloudWriter where
  writer : PagedWriter
  pointclouds : List PointCloud
  guid : String
  section_offset : Nat
  section_header : CompressedVectorSectionHeader
  prototype : List Record
  point_count : Nat
  buffer : List RawPoint
  max_points_per_packet : Nat
deriving DecidableEq

/-- Total bit size of one point under the prototype, as summed in new. -/
def pointBitSize (prototype : List Record) : Nat :=
  natSum (prototype.map fun r => r.data_type.bit_size)

/-- PointCloudWriter::new: record the section offset, write the placeholder
section header (length = header size), compute the packet capacity
(64000 * 8) / point_size.  The division is unguarded in the source and
panics when the prototype bit size is zero; the panic is modelled as an
error value. -/
def PointCloudWriter.new (writer : PagedWriter) (pointclouds : List PointCloud)
    (guid : String) (prototype : List Record) :
    Except E57Error PointCloudWriter :=
  let section_offset := writer.physical_position
  let section_header : CompressedVectorSectionHeader :=
    { data_offset := section_offset + CompressedVectorSectionHeader.SIZE,
      section_length := CompressedVectorSectionHeader.SIZE }
  let w2 := writer.writeChunk (.sectionHeader section_header)
  let point_size := pointBitSize prototype
  if point_size = 0 then .error (.panicErr "attempt to divide by zero")
  else
    .ok { writer := w2, pointclouds := pointclouds, guid := guid,
          section_offset := section_offset, section_header := section_header,
          prototype := prototype, point_count := 0, buffer := [],
          max_points_per_packet := 64000 * 8 / point_size }

/-- Encoding of one point: for each prototype field in order, look up the
value by name and write it into the corresponding per-field buffer; the
first missing field aborts with MissingField naming it. -/
def encodePoint : List Record → List ByteStreamOutBuffer → RawPoint →
    Except E57Error (List ByteStreamOutBuffer)
  | [], bufs, _ => .ok bufs
  | _ :: _, [], _ => .error (.internalError "missing byte stream buffer")
  | r :: rs, b :: bs, p =>
    match RawPoint.get p r.name with
    | none => .error (.missingField r.name)
    | some v =>
      match encodePoint rs bs p with
      | .error e => .error e
      | .ok bs2 => .ok (r.data_type.write v b :: bs2)

/-- The pop-and-encode loop of write_buffer_to_disk: pop the given number
of points from the front of the queue and encode each into the per-field
buffers.  On an error the points popped so far are already consumed, so
the remaining queue is returned alongside the error. -/
def encodePoints (proto : List Record) :
    Nat → List RawPoint → List ByteStreamOutBuffer →
    Except (E57Error × List RawPoint) (List ByteStreamOutBuffer × List RawPoint)
  | 0, buf, bufs => .ok (bufs, buf)
  | _ + 1, [], _ => .error (.internalError "Failed to get next point for writing", [])
  | k + 1, p :: rest, bufs =>
    match encodePoint proto bufs p with
    | .error e => .error (e, rest)
    | .ok bufs2 => encodePoints proto k rest bufs2

/-- The write sequence of one data packet, in source order: packet header,
then the byte stream sizes as 16-bit values, then the byte stream
payloads, then the 4-byte alignment of the stream. -/
def emitPacket (w : PagedWriter) (h : DataPacketHeader) (sizes lens : List Nat) :
    PagedWriter :=
  (((w.writeChunk (.packetHeader h)).writeChunks
      (sizes.map WChunk.sizeEntry)).writeChunks (lens.map WChunk.stream)).align

/-- The second half of write_buffer_to_disk, from the point where all
points of the packet are encoded: compute the byte stream sizes (the
declared sizes are cast to u16), round the packet length up to a
multiple of 4, reject lengths above 65535, and only then issue the
packet writes and add the packet length to the running section length. -/
def PointCloudWriter.finishPacket (s : PointCloudWriter)
    (buffers : List ByteStreamOutBuffer) (rest : List RawPoint) :
    Except (E57Error × PointCloudWriter) PointCloudWriter :=
  let lens := buffers.map ByteStreamOutBuffer.full_bytes
  let sum_buffer_sizes := natSum lens
  let buffer_sizes := lens.map (fun l => l % 65536)
  let packet_length :=
    roundUp4 (DataPacketHeader.SIZE + s.prototype.length * 2 + sum_buffer_sizes)
  if 65535 < packet_length then
    .error (.internalError "Invalid data packet length", { s with buffer := rest })
  else
    .ok { s with
      writer := emitPacket s.writer
        { comp_restart_flag := false, packet_length := packet_length,
          bytestream_count := s.prototype.length % 65536 }
        buffer_sizes lens,
      section_header := { s.section_header with
        section_length := (s.section_header.section_length + packet_length) % U64 },
      buffer := rest }

/-- PointCloudWriter::write_buffer_to_disk: serialize min(capacity, queue
length) points into one packet.  A zero point count is a no-op.  All
storage writes happen only after every point of the packet has been
encoded (the encode phase here, the size, length-check and write phase in
finishPacket above).  Because the source method mutates self even on the
error path (the popped points are consumed), errors carry the resulting
state. -/
def PointCloudWriter.write_buffer_to_disk (s : PointCloudWriter) :
    Except (E57Error × PointCloudWriter) PointCloudWriter :=
  let packet_points := min s.max_points_per_packet s.buffer.length
  if packet_points = 0 then .ok s
  else
    match encodePoints s.prototype packet_points s.buffer
        (s.prototype.map fun _ => ByteStreamOutBuffer.new) with
    | .error (e, rest) => .error (e, { s with buffer := rest })
    | .ok (buffers, rest) => s.finishPacket buffers rest

/-- PointCloudWriter::add_point: push the point at the back of the queue,
count it, and flush one packet when the queue has reached the capacity. -/
def PointCloudWriter.add_point (s : PointCloudWriter) (point : RawPoint) :
    Except (E57Error × PointCloudWriter) PointCloudWriter :=
  let s2 := { s with buffer := s.buffer ++ [point],
                     point_count := (s.point_count + 1) % U64 }
  if s2.max_points_per_packet ≤ s2.buffer.length then s2.write_buffer_to_disk
  else .ok s2

/-- Outcome of running the finalize flush loop under a fuel bound: normal
exit with the final state, early exit with an error and the state at that
point, or fuel exhausted (the loop is still running). -/
inductive FlushOutcome where
  | ok (s : PointCloudWriter)
  | err (e : E57Error) (s : PointCloudWriter)
  | spin
deriving DecidableEq

/-- The while loop of finalize: flush until the pending queue is empty.
The source loop has no bound; fuel counts the remaining permitted
iterations, and spin reports that the loop was still running when the
fuel ran out. -/
def PointCloudWriter.flushLoop : Nat → PointCloudWriter → FlushOutcome
  | 0, s => if s.buffer.isEmpty then .ok s else .spin
  | fuel + 1, s =>
    if s.buffer.isEmpty then .ok s
    else
      match s.write_buffer_to_disk with
      | .error (e, s2) => .err e s2
      | .ok s2 => PointCloudWriter.flushLoop fuel s2

/-- The tail of finalize after the flush loop: remember the end offset,
seek to the section start, rewrite the section header with the final
length, seek back, and append the finalized section metadata. -/
def PointCloudWriter.finishFinalize (s : PointCloudWriter) : PointCloudWriter :=
  let end_offset := s.writer.physical_position
  let w1 := s.writer.physical_seek s.section_offset
  let w2 := w1.writeChunk (.sectionHeader s.section_header)
  let w3 := w2.physical_seek end_offset
  { s with writer := w3,
           pointclouds := s.pointclouds ++
             [{ guid := s.guid, records := s.point_count,
                file_offset := s.section_offset, prototype := s.prototype }] }

/-- PointCloudWriter::finalize under a fuel bound for its flush loop: none
means the loop exceeded the fuel (the source loop would still be
running). -/
def PointCloudWriter.finalizeWithFuel (fuel : Nat) (s : PointCloudWriter) :
    Option (Except (E57Error × PointCloudWriter) PointCloudWriter) :=
  match s.flushLoop fuel with
  | .spin => none
  | .err e s2 => some (.error (e, s2))
  | .ok s2 => some (.ok s2.finishFinalize)

/-- Enqueue a list of points one by one (the caller-side iteration used by
the scenario claims). -/
def PointCloudWriter.addAll (s : PointCloudWriter) :
    List RawPoint → Except (E57Error × PointCloudWriter) PointCloudWriter
  | [] => .ok s
  | p :: ps =>
    match s.add_point p with
    | .error e => .error e
    | .ok s2 => PointCloudWriter.addAll s2 ps

/-- The data packet header carried by a write, if it is one. -/
def pktOfChunk : WChunk → Option DataPacketHeader
  | .packetHeader h => some h
  | _ => none

/-- The data packet headers contained in a storage log, in write order. -/
def packetsOf (log : List (Nat × WChunk)) : List DataPacketHeader :=
  log.filterMap fun pc => pktOfChunk pc.2

/-- The packets a session has written: those beyond the packets already
present in the base stream the session was opened on. -/
def sessionPackets (baseLog log : List (Nat × WChunk)) : List DataPacketHeader :=
  (packetsOf log).drop (packetsOf baseLog).length

/-- Position-annotated form of a write sequence starting at a position. -/
def chunkSeq : Nat → List WChunk → List (Nat × WChunk)
  | _, [] => []
  | p, c :: cs => (p, c) :: chunkSeq (p + c.size) cs

/-- The per-field buffers after encoding a given number of points, when
encoding starts from fresh buffers. -/
def bufsAfter (proto : List Record) (k : Nat) : List ByteStreamOutBuffer :=
  proto.map fun r => ⟨k * r.data_type.bit_size⟩

/-- The per-field buffers obtained by adding k points worth of bits to
given buffers. -/
def addBits (proto : List Record) (k : Nat) (bufs : List ByteStreamOutBuffer) :
    List ByteStreamOutBuffer :=
  List.zipWith (fun r b => ⟨b.bits + k * r.data_type.bit_size⟩) proto bufs

/-- The byte stream lengths of one packet of k points (one entry per
prototype field, each the rounded-up byte count of k field values). -/
def packetLens (proto : List Record) (k : Nat) : List Nat :=
  proto.map fun r => (k * r.data_type.bit_size + 7) / 8

/-- The packet length write_buffer_to_disk computes for a packet of k
points: header size plus two bytes per field plus the byte stream sizes,
rounded up to a multiple of 4. -/
def packetLengthFor (proto : List Record) (k : Nat) : Nat :=
  roundUp4 (DataPacketHeader.SIZE + proto.length * 2 + natSum (packetLens proto k))

/-- The data packet header write_buffer_to_disk builds for a packet of k
points: restart flag false, the rounded packet length, and the field
count cast to u16. -/
def packetHeaderFor (proto : List Record) (k : Nat) : DataPacketHeader :=
  { comp_restart_flag := false, packet_length := packetLengthFor proto k,
    bytestream_count := proto.length % 65536 }

/-- The state write_buffer_to_disk produces when it successfully emits a
packet of k points: the packet writes are appended to the stream, the
packet length is added to the running section length (with 64-bit
wrap-around), and the k points leave the queue. -/
def flushedState (s : PointCloudWriter) (k : Nat) : PointCloudWriter :=
  { s with
    writer := emitPacket s.writer (packetHeaderFor s.prototype k)
      ((packetLens s.prototype k).map fun l => l % 65536) (packetLens s.prototype k),
    section_header := { s.section_header with
      section_length :=
        (s.section_header.section_length + packetLengthFor s.prototype k) % U64 },
    buffer := s.buffer.drop k }

/-- A session state from which the flush loop never exits: every fuel bound
is exhausted. -/
def spinsForever (s : PointCloudWriter) : Prop :=
  ∀ fuel, PointCloudWriter.flushLoop fuel s = .spin

/-- Session states reachable through the public interface from a given
stream, pointcloud list, guid and prototype: the state new returns, and
anything obtained by successful add_point or finalize calls. -/
inductive Reachable (w0 : PagedWriter) (pcs0 : List PointCloud) (g : String)
    (proto : List Record) : PointCloudWriter → Prop where
  | init (s : PointCloudWriter) :
      PointCloudWriter.new w0 pcs0 g proto = .ok s → Reachable w0 pcs0 g proto s
  | add (s : PointCloudWriter) (p : RawPoint) (s2 : PointCloudWriter) :
      Reachable w0 pcs0 g proto s → s.add_point p = .ok s2 →
      Reachable w0 pcs0 g proto s2
  | fin (s : PointCloudWriter) (fuel : Nat) (s2 : PointCloudWriter) :
      Reachable w0 pcs0 g proto s →
      PointCloudWriter.finalizeWithFuel fuel s = some (.ok s2) →
      Reachable w0 pcs0 g proto s2

/-- The section bookkeeping invariant of a session opened on the stream w0:
the section starts at the position the stream had, the stream log has
grown by the session packets, and the running section length is the
header size plus the lengths of exactly those packets (with 64-bit
wrap-around), each of which passed the 16-bit ceiling check and is
4-aligned. -/
def SecInv (w0 : PagedWriter) (s : PointCloudWriter) : Prop :=
  s.section_offset = w0.pos ∧
  ∃ pkts, packetsOf s.writer.log = packetsOf w0.log ++ pkts ∧
    s.section_header.section_length
      = (CompressedVectorSectionHeader.SIZE +
          natSum (pkts.map DataPacketHeader.packet_length)) % U64 ∧
    ∀ hp ∈ pkts, hp.packet_length ≤ 65535 ∧ hp.packet_length % 4 = 0

/-- An empty storage stream at position 0 (used by the concrete sessions of
the witnesses). -/
def wEmpty : PagedWriter := ⟨[], 0⟩

/-- A prototype with a single 24-bit field. -/
def proto24 : List Record := [⟨"x", ⟨24⟩⟩]

/-- A prototype with a single 32-bit field (Scenario A of the spec). -/
def proto32 : List Record := [⟨"x", ⟨32⟩⟩]

/-- A prototype whose point bit size 512001 exceeds the 512000-bit packet
budget, making the computed capacity zero. -/
def protoHuge : List Record := [⟨"x", ⟨512001⟩⟩]

/-- A prototype of 800 fields of 633 bits each: the packet of a single
point then computes to 65608 bytes, above the 16-bit ceiling. -/
def protoWide : List Record := List.replicate 800 ⟨"x", ⟨633⟩⟩

/-- A two-field prototype for the missing-field scenarios. -/
def protoAB : List Record := [⟨"a", ⟨8⟩⟩, ⟨"b", ⟨8⟩⟩]

/-- A point carrying only the field x. -/
def ptX : RawPoint := [("x", 0)]

/-- The session state new yields on the empty stream for proto24. -/
def s24 : PointCloudWriter :=
  { writer := ⟨[(0, .sectionHeader ⟨32, 32⟩)], 32⟩, pointclouds := [], guid := "g",
    section_offset := 0, section_header := ⟨32, 32⟩, prototype := proto24,
    point_count := 0, buffer := [], max_points_per_packet := 21333 }

/-- The session state new yields on the empty stream for protoHuge
(capacity 0). -/
def sHuge0 : PointCloudWriter :=
  { writer := ⟨[(0, .sectionHeader ⟨32, 32⟩)], 32⟩, pointclouds := [], guid := "g",
    section_offset := 0, section_header := ⟨32, 32⟩, prototype := protoHuge,
    point_count := 0, buffer := [], max_points_per_packet := 0 }

/-- The capacity-zero session after one enqueued point: the triggered flush
was a no-op and the point is stuck in the queue. -/
def sHuge1 : PointCloudWriter :=
  { sHuge0 with buffer := [ptX], point_count := 1 }

/-- The session state new yields on the empty stream for proto32
(capacity 16000). -/
def s32 : PointCloudWriter :=
  { writer := ⟨[(0, .sectionHeader ⟨32, 32⟩)], 32⟩, pointclouds := [], guid := "g",
    section_offset := 0, section_header := ⟨32, 32⟩, prototype := proto32,
    point_count := 0, buffer := [], max_points_per_packet := 16000 }

/-- The proto24 session with one pending point. -/
def s24one : PointCloudWriter :=
  { s24 with buffer := [ptX], point_count := 1 }

/-- A session over the 800-field protoWide prototype (capacity 1) with one
pending point: its packet computes to 65608 bytes and is rejected. -/
def sWide : PointCloudWriter :=
  { writer := ⟨[(0, .sectionHeader ⟨32, 32⟩)], 32⟩, pointclouds := [], guid := "g",
    section_offset := 0, section_header := ⟨32, 32⟩, prototype := protoWide,
    point_count := 1, buffer := [ptX], max_points_per_packet := 1 }

/-- A session over the two-field prototype with one pending point that
only carries the field a. -/
def sAB : PointCloudWriter :=
  { writer := ⟨[(0, .sectionHeader ⟨32, 32⟩)], 32⟩, pointclouds := [], guid := "g",
    section_offset := 0, section_header := ⟨32, 32⟩, prototype := protoAB,
    point_count := 1, buffer := [[("a", 1)]], max_points_per_packet := 32000 }

/-! Helper lemmas about sums, write logs and packet extraction. -/

theorem foldl_add_eq (l : List Nat) (a : Nat) : l.foldl (· + ·) a = a + natSum l := by
  induction l generalizing a with
  | nil => simp [natSum]
  | cons x xs ih =>
    simp only [natSum, List.foldl_cons]
    rw [ih (a + x), ih (0 + x)]
    omega

theorem natSum_nil : natSum [] = 0 := rfl

theorem natSum_cons (a : Nat) (l : List Nat) : natSum (a :: l) = a + natSum l := by
  simp only [natSum, List.foldl_cons]
  rw [foldl_add_eq l (0 + a), foldl_add_eq l 0]
  omega

theorem natSum_append (l m : List Nat) : natSum (l ++ m) = natSum l + natSum m := by
  induction l with
  | nil => simp [natSum_nil, natSum]
  | cons x xs ih =>
    rw [List.cons_append, natSum_cons, natSum_cons, ih]
    omega

theorem natSum_const2 (l : List Nat) :
    natSum (l.map fun _ => 2) = 2 * l.length := by
  induction l with
  | nil => rfl
  | cons x xs ih =>
    rw [List.map_cons, natSum_cons, ih, List.length_cons]
    omega

theorem roundUp4_mod (n : Nat) : roundUp4 n % 4 = 0 := by
  unfold roundUp4
  split
  · assumption
  · omega

theorem roundUp4_ge (n : Nat) : n ≤ roundUp4 n := by
  unfold roundUp4
  split <;> omega

theorem chunkSeq_append (p : Nat) (cs ds : List WChunk) :
    chunkSeq p (cs ++ ds) =
      chunkSeq p cs ++ chunkSeq (p + natSum (cs.map WChunk.size)) ds := by
  induction cs generalizing p with
  | nil => simp [chunkSeq, natSum_nil]
  | cons c cs ih =>
    simp only [List.cons_append, chunkSeq, List.append_eq]
    rw [ih (p + c.size)]
    have h2 : p + c.size + natSum (cs.map WChunk.size)
        = p + natSum ((c :: cs).map WChunk.size) := by
      rw [List.map_cons, natSum_cons]
      omega
    rw [h2]

theorem writeChunks_spec (cs : List WChunk) (w : PagedWriter) :
    w.writeChunks cs =
      ⟨w.log ++ chunkSeq w.pos cs, w.pos + natSum (cs.map WChunk.size)⟩ := by
  induction cs generalizing w with
  | nil => simp [PagedWriter.writeChunks, chunkSeq, natSum_nil]
  | cons c cs ih =>
    simp only [PagedWriter.writeChunks, List.foldl_cons] at ih ⊢
    rw [ih]
    simp only [PagedWriter.writeChunk, chunkSeq, List.map_cons, natSum_cons,
      List.append_assoc, List.singleton_append, Nat.add_assoc]

theorem packetsOf_append (l m : List (Nat × WChunk)) :
    packetsOf (l ++ m) = packetsOf l ++ packetsOf m := by
  simp [packetsOf, List.filterMap_append]

theorem packetsOf_chunkSeq (p : Nat) (cs : List WChunk) :
    packetsOf (chunkSeq p cs) = cs.filterMap pktOfChunk := by
  induction cs generalizing p with
  | nil => rfl
  | cons c cs ih =>
    show packetsOf ([(p, c)] ++ chunkSeq (p + c.size) cs)
      = List.filterMap pktOfChunk (c :: cs)
    rw [packetsOf_append, ih (p + c.size), List.filterMap_cons]
    cases hc : pktOfChunk c with
    | none => simp [packetsOf, List.filterMap_cons, hc]
    | some hd => simp [packetsOf, List.filterMap_cons, hc]

theorem filterMap_pkt_sizeEntry (l : List Nat) :
    (l.map WChunk.sizeEntry).filterMap pktOfChunk = [] := by
  induction l with
  | nil => rfl
  | cons x xs ih => simp [List.filterMap_cons, pktOfChunk, ih]

theorem filterMap_pkt_stream (l : List Nat) :
    (l.map WChunk.stream).filterMap pktOfChunk = [] := by
  induction l with
  | nil => rfl
  | cons x xs ih => simp [List.filterMap_cons, pktOfChunk, ih]

theorem packetsOf_writeChunk_section (w : PagedWriter)
    (h : CompressedVectorSectionHeader) :
    packetsOf (w.writeChunk (.sectionHeader h)).log = packetsOf w.log := by
  show packetsOf (w.log ++ [(w.pos, WChunk.sectionHeader h)]) = packetsOf w.log
  rw [packetsOf_append]
  simp [packetsOf, List.filterMap_cons, pktOfChunk]

theorem emitPacket_spec (w : PagedWriter) (h : DataPacketHeader)
    (sizes lens : List Nat) (p1 : Nat)
    (hp1 : p1 = w.pos + DataPacketHeader.SIZE + 2 * sizes.length + natSum lens) :
    emitPacket w h sizes lens =
      { log := w.log ++
          chunkSeq w.pos (WChunk.packetHeader h ::
            (sizes.map WChunk.sizeEntry ++ lens.map WChunk.stream)) ++
          (if p1 % 4 = 0 then [] else [(p1, WChunk.pad (4 - p1 % 4))]),
        pos := if p1 % 4 = 0 then p1 else p1 + (4 - p1 % 4) } := by
  have hs : natSum ((sizes.map WChunk.sizeEntry).map WChunk.size) = 2 * sizes.length := by
    rw [List.map_map]
    have h2 : (WChunk.size ∘ WChunk.sizeEntry) = fun (_ : Nat) => 2 := rfl
    rw [h2, natSum_const2]
  have hl : natSum ((lens.map WChunk.stream).map WChunk.size) = natSum lens := by
    rw [List.map_map]
    have h2 : (WChunk.size ∘ WChunk.stream) = fun (l : Nat) => l := rfl
    rw [h2]
    simp
  unfold emitPacket
  rw [writeChunks_spec, writeChunks_spec]
  simp only [PagedWriter.writeChunk, PagedWriter.align, hs, hl]
  have hsz : WChunk.size (WChunk.packetHeader h) = DataPacketHeader.SIZE := rfl
  have hpos : w.pos + WChunk.size (WChunk.packetHeader h) + 2 * sizes.length + natSum lens
      = p1 := by rw [hsz]; omega
  rw [hpos]
  have hlog : w.log ++ [(w.pos, WChunk.packetHeader h)] ++
        chunkSeq (w.pos + WChunk.size (WChunk.packetHeader h))
          (sizes.map WChunk.sizeEntry) ++
        chunkSeq (w.pos + WChunk.size (WChunk.packetHeader h) + 2 * sizes.length)
          (lens.map WChunk.stream)
      = w.log ++ chunkSeq w.pos (WChunk.packetHeader h ::
          (sizes.map WChunk.sizeEntry ++ lens.map WChunk.stream)) := by
    rw [chunkSeq, chunkSeq_append, hs]
    simp [List.append_assoc]
  rw [hlog]
  split
  · simp
  · simp [PagedWriter.writeChunk, WChunk.size]

/-! Helper lemmas about zipWith. -/

theorem zipWith_self_map {α β γ : Type} (f : α → β → γ) (g : α → β) (l : List α) :
    List.zipWith f l (l.map g) = l.map fun a => f a (g a) := by
  induction l with
  | nil => rfl
  | cons a l ih => simp [List.zipWith_cons_cons, ih]

theorem zipWith_zipWith {α β γ δ : Type} (f : α → γ → δ) (g : α → β → γ)
    (l1 : List α) (l2 : List β) :
    List.zipWith f l1 (List.zipWith g l1 l2)
      = List.zipWith (fun a b => f a (g a b)) l1 l2 := by
  induction l1 generalizing l2 with
  | nil => rfl
  | cons a l ih =>
    cases l2 with
    | nil => rfl
    | cons b l2 => simp [List.zipWith_cons_cons, ih]

theorem packetsOf_emitPacket (w : PagedWriter) (h : DataPacketHeader)
    (sizes lens : List Nat) :
    packetsOf (emitPacket w h sizes lens).log = packetsOf w.log ++ [h] := by
  rw [emitPacket_spec w h sizes lens _ rfl]
  simp only [packetsOf_append, packetsOf_chunkSeq]
  simp only [List.filterMap_cons, List.filterMap_append, pktOfChunk,
    filterMap_pkt_sizeEntry, filterMap_pkt_stream]
  split <;> simp [packetsOf, List.filterMap_cons, pktOfChunk]

/-! Characterization of the encoding loop. -/

theorem zipWith_snd_eq (proto : List Record) (bufs : List ByteStreamOutBuffer)
    (hlen : bufs.length = proto.length) :
    List.zipWith (fun (_ : Record) (b : ByteStreamOutBuffer) => b) proto bufs = bufs := by
  induction proto generalizing bufs with
  | nil =>
    cases bufs with
    | nil => rfl
    | cons b bs => simp at hlen
  | cons r rs ih =>
    cases bufs with
    | nil => simp at hlen
    | cons b bs => simp [List.zipWith_cons_cons, ih bs (by simpa using hlen)]

theorem encodePoint_ok_of (proto : List Record) (bufs : List ByteStreamOutBuffer)
    (p : RawPoint) (hlen : bufs.length = proto.length)
    (h : missesField proto p = false) :
    encodePoint proto bufs p =
      .ok (List.zipWith (fun r b => ⟨b.bits + r.data_type.bit_size⟩) proto bufs) := by
  induction proto generalizing bufs with
  | nil =>
    have : bufs = [] := List.length_eq_zero.mp hlen
    subst this
    rfl
  | cons r rs ih =>
    cases bufs with
    | nil => simp at hlen
    | cons b bs =>
      have h1 : (RawPoint.get p r.name).isNone = false := by
        by_contra hc
        have : (RawPoint.get p r.name).isNone = true := by
          cases hx : (RawPoint.get p r.name).isNone
          · exact absurd hx hc
          · rfl
        unfold missesField at h
        rw [List.any_cons] at h
        simp [this] at h
      have h2 : missesField rs p = false := by
        unfold missesField at h ⊢
        rw [List.any_cons] at h
        cases hx : List.any rs fun r => (RawPoint.get p r.name).isNone
        · rfl
        · rw [hx] at h; simp at h
      cases hv : RawPoint.get p r.name with
      | none => simp [hv] at h1
      | some v =>
        have hlen2 : bs.length = rs.length := by simpa using hlen
        simp only [encodePoint, hv, ih bs hlen2 h2, List.zipWith_cons_cons]
        rfl

theorem encodePoint_ok_elim (proto : List Record) (bufs bufs2 : List ByteStreamOutBuffer)
    (p : RawPoint) (hlen : bufs.length = proto.length)
    (h : encodePoint proto bufs p = .ok bufs2) :
    bufs2 = List.zipWith (fun r b => ⟨b.bits + r.data_type.bit_size⟩) proto bufs := by
  induction proto generalizing bufs bufs2 with
  | nil =>
    have : bufs = [] := List.length_eq_zero.mp hlen
    subst this
    simp only [encodePoint] at h
    cases h
    rfl
  | cons r rs ih =>
    cases bufs with
    | nil => simp at hlen
    | cons b bs =>
      have hlen2 : bs.length = rs.length := by simpa using hlen
      simp only [encodePoint] at h
      cases hv : RawPoint.get p r.name with
      | none => rw [hv] at h; cases h
      | some v =>
        rw [hv] at h
        cases hrec : encodePoint rs bs p with
        | error e => rw [hrec] at h; cases h
        | ok bs2 =>
          rw [hrec] at h
          cases h
          rw [List.zipWith_cons_cons]
          exact congrArg _ (ih bs bs2 hlen2 hrec)

theorem encodePoint_err_missing (proto : List Record) (bufs : List ByteStreamOutBuffer)
    (p : RawPoint) (hlen : bufs.length = proto.length)
    (h : missesField proto p = true) :
    ∃ nm, encodePoint proto bufs p = .error (.missingField nm) ∧
      nm ∈ proto.map Record.name ∧ RawPoint.get p nm = none := by
  induction proto generalizing bufs with
  | nil => simp [missesField] at h
  | cons r rs ih =>
    cases bufs with
    | nil => simp at hlen
    | cons b bs =>
      have hlen2 : bs.length = rs.length := by simpa using hlen
      cases hv : RawPoint.get p r.name with
      | none =>
        refine ⟨r.name, ?_, ?_, hv⟩
        · simp only [encodePoint, hv]
        · simp
      | some v =>
        have h2 : missesField rs p = true := by
          unfold missesField at h ⊢
          rw [List.any_cons] at h
          simp [hv] at h
          simpa using h
        obtain ⟨nm, herr, hmem, hget⟩ := ih bs hlen2 h2
        refine ⟨nm, ?_, ?_, hget⟩
        · simp only [encodePoint, hv, herr]
        · simp only [List.map_cons, List.mem_cons]
          exact Or.inr hmem

theorem bufsAfter_length (proto : List Record) (k : Nat) :
    (bufsAfter proto k).length = proto.length := by
  simp [bufsAfter]

theorem zipWith_step_bufsAfter (proto : List Record) (j : Nat) :
    List.zipWith (fun r b => (⟨b.bits + r.data_type.bit_size⟩ : ByteStreamOutBuffer))
        proto (bufsAfter proto j) = bufsAfter proto (j + 1) := by
  unfold bufsAfter
  rw [zipWith_self_map]
  have hf : (fun (r : Record) =>
        (⟨j * r.data_type.bit_size + r.data_type.bit_size⟩ : ByteStreamOutBuffer))
      = fun r => (⟨(j + 1) * r.data_type.bit_size⟩ : ByteStreamOutBuffer) := by
    funext r
    congr 1
    ring
  show List.map (fun r =>
      (⟨j * r.data_type.bit_size + r.data_type.bit_size⟩ : ByteStreamOutBuffer)) proto
    = List.map (fun r => (⟨(j + 1) * r.data_type.bit_size⟩ : ByteStreamOutBuffer)) proto
  exact congrArg (fun f => List.map f proto) hf

theorem encodePoints_ok_of (proto : List Record) :
    ∀ (k j : Nat) (buf : List RawPoint), k ≤ buf.length →
    ((buf.take k).any (missesField proto)) = false →
    encodePoints proto k buf (bufsAfter proto j)
      = .ok (bufsAfter proto (j + k), buf.drop k) := by
  intro k
  induction k with
  | zero => intro j buf _ _; simp [encodePoints]
  | succ k ih =>
    intro j buf hk hm
    cases buf with
    | nil => simp at hk
    | cons p rest =>
      rw [List.take_succ_cons, List.any_cons] at hm
      have hm1 : missesField proto p = false := by
        cases hx : missesField proto p
        · rfl
        · rw [hx] at hm; simp at hm
      have hm2 : ((rest.take k).any (missesField proto)) = false := by
        rw [hm1] at hm; simpa using hm
      have hk2 : k ≤ rest.length := by simpa using hk
      simp only [encodePoints]
      rw [encodePoint_ok_of proto (bufsAfter proto j) p (bufsAfter_length proto j) hm1]
      rw [zipWith_step_bufsAfter proto j]
      change encodePoints proto k rest (bufsAfter proto (j + 1)) = _
      rw [ih (j + 1) rest hk2 hm2]
      have : j + 1 + k = j + (k + 1) := by omega
      rw [this, List.drop_succ_cons]

theorem encodePoints_ok_elim (proto : List Record) :
    ∀ (k : Nat) (buf : List RawPoint) (bufs0 bufs2 : List ByteStreamOutBuffer)
      (rest : List RawPoint), bufs0.length = proto.length →
    encodePoints proto k buf bufs0 = .ok (bufs2, rest) →
    bufs2 = addBits proto k bufs0 ∧ rest = buf.drop k ∧ k ≤ buf.length := by
  intro k
  induction k with
  | zero =>
    intro buf bufs0 bufs2 rest hlen h
    simp only [encodePoints] at h
    cases h
    refine ⟨?_, by simp, by simp⟩
    unfold addBits
    have hf : (fun (r : Record) (b : ByteStreamOutBuffer) =>
          (⟨b.bits + 0 * r.data_type.bit_size⟩ : ByteStreamOutBuffer))
        = fun _ b => b := by
      funext r b
      simp
    rw [hf]
    exact (zipWith_snd_eq proto bufs0 hlen).symm
  | succ k ih =>
    intro buf bufs0 bufs2 rest hlen h
    cases buf with
    | nil => simp only [encodePoints] at h; cases h
    | cons p rest0 =>
      simp only [encodePoints] at h
      cases hE : encodePoint proto bufs0 p with
      | error e => rw [hE] at h; cases h
      | ok bufs1 =>
        rw [hE] at h
        have hb1 : bufs1 =
            List.zipWith (fun r b => ⟨b.bits + r.data_type.bit_size⟩) proto bufs0 :=
          encodePoint_ok_elim proto bufs0 bufs1 p hlen hE
        have hlen1 : bufs1.length = proto.length := by
          rw [hb1, List.length_zipWith, hlen]
          omega
        obtain ⟨h1, h2, h3⟩ := ih rest0 bufs1 bufs2 rest hlen1 h
        refine ⟨?_, by simpa using h2, by simpa using Nat.succ_le_succ h3⟩
        rw [h1, hb1]
        unfold addBits
        rw [zipWith_zipWith]
        have hf : (fun (a : Record) (b : ByteStreamOutBuffer) =>
              (⟨b.bits + a.data_type.bit_size + k * a.data_type.bit_size⟩ :
                ByteStreamOutBuffer))
            = fun a b => ⟨b.bits + (k + 1) * a.data_type.bit_size⟩ := by
          funext a b
          congr 1
          ring
        rw [hf]

theorem freshBufs_eq (proto : List Record) :
    (proto.map fun _ => ByteStreamOutBuffer.new) = bufsAfter proto 0 := by
  unfold bufsAfter ByteStreamOutBuffer.new
  have hf : (fun (_ : Record) => (⟨0⟩ : ByteStreamOutBuffer))
      = fun r => (⟨0 * r.data_type.bit_size⟩ : ByteStreamOutBuffer) := by
    funext r
    simp
  rw [hf]

theorem addBits_fresh (proto : List Record) (k : Nat) :
    addBits proto k (proto.map fun _ => ByteStreamOutBuffer.new) = bufsAfter proto k := by
  unfold addBits ByteStreamOutBuffer.new bufsAfter
  rw [zipWith_self_map]
  have hf : (fun (r : Record) =>
        (⟨(⟨0⟩ : ByteStreamOutBuffer).bits + k * r.data_type.bit_size⟩ :
          ByteStreamOutBuffer))
      = fun r => (⟨k * r.data_type.bit_size⟩ : ByteStreamOutBuffer) := by
    funext r
    simp
  rw [hf]

theorem bufsAfter_lens (proto : List Record) (k : Nat) :
    (bufsAfter proto k).map ByteStreamOutBuffer.full_bytes = packetLens proto k := by
  unfold bufsAfter packetLens
  rw [List.map_map]
  rfl

/-! Characterization of write_buffer_to_disk. -/

theorem flush_noop (s : PointCloudWriter)
    (h : min s.max_points_per_packet s.buffer.length = 0) :
    s.write_buffer_to_disk = .ok s := by
  simp [PointCloudWriter.write_buffer_to_disk, h]

theorem finishPacket_spec (s : PointCloudWriter) (k : Nat)
    (hpl : packetLengthFor s.prototype k ≤ 65535) :
    s.finishPacket (bufsAfter s.prototype k) (s.buffer.drop k)
      = .ok (flushedState s k) := by
  simp only [PointCloudWriter.finishPacket, bufsAfter_lens]
  have hcond : ¬ 65535 < roundUp4 (DataPacketHeader.SIZE + s.prototype.length * 2 +
      natSum (packetLens s.prototype k)) := by
    unfold packetLengthFor at hpl
    omega
  rw [if_neg hcond]
  unfold flushedState packetLengthFor
  rfl

theorem flush_ok_of (s : PointCloudWriter) (k : Nat)
    (hk : min s.max_points_per_packet s.buffer.length = k) (hk0 : k ≠ 0)
    (hm : ((s.buffer.take k).any (missesField s.prototype)) = false)
    (hpl : packetLengthFor s.prototype k ≤ 65535) :
    s.write_buffer_to_disk = .ok (flushedState s k) := by
  have hkle : k ≤ s.buffer.length := by
    rw [← hk]
    exact Nat.min_le_right _ _
  simp only [PointCloudWriter.write_buffer_to_disk, hk]
  rw [if_neg hk0]
  rw [freshBufs_eq, encodePoints_ok_of s.prototype k 0 s.buffer hkle hm]
  change s.finishPacket (bufsAfter s.prototype (0 + k)) (s.buffer.drop k) = _
  rw [Nat.zero_add]
  exact finishPacket_spec s k hpl

theorem flush_ok_elim (s s2 : PointCloudWriter)
    (h : s.write_buffer_to_disk = .ok s2) :
    (min s.max_points_per_packet s.buffer.length = 0 ∧ s2 = s) ∨
    (min s.max_points_per_packet s.buffer.length ≠ 0 ∧
      packetLengthFor s.prototype (min s.max_points_per_packet s.buffer.length)
        ≤ 65535 ∧
      s2 = flushedState s (min s.max_points_per_packet s.buffer.length)) := by
  simp only [PointCloudWriter.write_buffer_to_disk] at h
  by_cases hk : min s.max_points_per_packet s.buffer.length = 0
  · left
    rw [if_pos hk] at h
    injection h with h2
    exact ⟨hk, h2.symm⟩
  · right
    rw [if_neg hk] at h
    cases hE : encodePoints s.prototype (min s.max_points_per_packet s.buffer.length)
        s.buffer (s.prototype.map fun _ => ByteStreamOutBuffer.new) with
    | error ep =>
      rw [hE] at h
      obtain ⟨e, rest⟩ := ep
      simp at h
    | ok pr =>
      obtain ⟨buffers, rest⟩ := pr
      rw [hE] at h
      change s.finishPacket buffers rest = Except.ok s2 at h
      obtain ⟨hb, hr, hkle⟩ := encodePoints_ok_elim s.prototype
        (min s.max_points_per_packet s.buffer.length) s.buffer _ buffers rest
        (by simp) hE
      rw [addBits_fresh] at hb
      subst hb
      subst hr
      simp only [PointCloudWriter.finishPacket, bufsAfter_lens] at h
      by_cases hpl : 65535 < roundUp4 (DataPacketHeader.SIZE + s.prototype.length * 2 +
          natSum (packetLens s.prototype (min s.max_points_per_packet s.buffer.length)))
      · rw [if_pos hpl] at h
        simp at h
      · rw [if_neg hpl] at h
        injection h with h2
        refine ⟨hk, by unfold packetLengthFor; omega, ?_⟩
        rw [← h2]
        unfold flushedState packetLengthFor
        rfl

theorem flush_err_elim (s s2 : PointCloudWriter) (e : E57Error)
    (h : s.write_buffer_to_disk = .error (e, s2)) :
    s2.writer = s.writer ∧ s2.section_header = s.section_header ∧
    s2.pointclouds = s.pointclouds ∧ s2.guid = s.guid ∧
    s2.section_offset = s.section_offset ∧ s2.prototype = s.prototype ∧
    s2.point_count = s.point_count ∧
    s2.max_points_per_packet = s.max_points_per_packet := by
  simp only [PointCloudWriter.write_buffer_to_disk] at h
  by_cases hk : min s.max_points_per_packet s.buffer.length = 0
  · rw [if_pos hk] at h
    simp at h
  · rw [if_neg hk] at h
    cases hE : encodePoints s.prototype (min s.max_points_per_packet s.buffer.length)
        s.buffer (s.prototype.map fun _ => ByteStreamOutBuffer.new) with
    | error ep =>
      obtain ⟨e2, rest⟩ := ep
      rw [hE] at h
      change Except.error (e2, { s with buffer := rest }) = Except.error (e, s2) at h
      injection h with h2
      obtain ⟨he, hs⟩ := Prod.mk.injEq _ _ _ _ |>.mp h2
      rw [← hs]
      exact ⟨rfl, rfl, rfl, rfl, rfl, rfl, rfl, rfl⟩
    | ok pr =>
      obtain ⟨buffers, rest⟩ := pr
      rw [hE] at h
      change s.finishPacket buffers rest = Except.error (e, s2) at h
      simp only [PointCloudWriter.finishPacket] at h
      split at h
      · injection h with h2
        obtain ⟨he, hs⟩ := Prod.mk.injEq _ _ _ _ |>.mp h2
        rw [← hs]
        exact ⟨rfl, rfl, rfl, rfl, rfl, rfl, rfl, rfl⟩
      · simp at h

/-! The finalize flush loop. -/

theorem flushLoop_empty (s : PointCloudWriter) (h : s.buffer = []) (fuel : Nat) :
    PointCloudWriter.flushLoop fuel s = .ok s := by
  cases fuel <;> simp [PointCloudWriter.flushLoop, h]

theorem flushLoop_ok_buffer (fuel : Nat) (s s2 : PointCloudWriter)
    (h : PointCloudWriter.flushLoop fuel s = .ok s2) : s2.buffer = [] := by
  induction fuel generalizing s with
  | zero =>
    simp only [PointCloudWriter.flushLoop] at h
    by_cases he : s.buffer.isEmpty
    · rw [if_pos he] at h
      injection h with h2
      rw [← h2]
      exact List.isEmpty_iff.mp he
    · rw [if_neg he] at h
      cases h
  | succ fuel ih =>
    simp only [PointCloudWriter.flushLoop] at h
    by_cases he : s.buffer.isEmpty
    · rw [if_pos he] at h
      injection h with h2
      rw [← h2]
      exact List.isEmpty_iff.mp he
    · rw [if_neg he] at h
      cases hf : s.write_buffer_to_disk with
      | error ep => rw [hf] at h; obtain ⟨e, s3⟩ := ep; cases h
      | ok s3 =>
        rw [hf] at h
        exact ih s3 h

theorem flushedState_preserves (s : PointCloudWriter) (k : Nat) :
    (flushedState s k).guid = s.guid ∧
    (flushedState s k).section_offset = s.section_offset ∧
    (flushedState s k).prototype = s.prototype ∧
    (flushedState s k).max_points_per_packet = s.max_points_per_packet ∧
    (flushedState s k).point_count = s.point_count ∧
    (flushedState s k).pointclouds = s.pointclouds := by
  exact ⟨rfl, rfl, rfl, rfl, rfl, rfl⟩

theorem flushLoop_preserves (fuel : Nat) (s s2 : PointCloudWriter)
    (h : PointCloudWriter.flushLoop fuel s = .ok s2) :
    s2.guid = s.guid ∧ s2.section_offset = s.section_offset ∧
    s2.prototype = s.prototype ∧
    s2.max_points_per_packet = s.max_points_per_packet ∧
    s2.point_count = s.point_count ∧ s2.pointclouds = s.pointclouds := by
  induction fuel generalizing s with
  | zero =>
    simp only [PointCloudWriter.flushLoop] at h
    by_cases he : s.buffer.isEmpty
    · rw [if_pos he] at h
      injection h with h2
      rw [h2]
      exact ⟨rfl, rfl, rfl, rfl, rfl, rfl⟩
    · rw [if_neg he] at h
      cases h
  | succ fuel ih =>
    simp only [PointCloudWriter.flushLoop] at h
    by_cases he : s.buffer.isEmpty
    · rw [if_pos he] at h
      injection h with h2
      rw [h2]
      exact ⟨rfl, rfl, rfl, rfl, rfl, rfl⟩
    · rw [if_neg he] at h
      cases hf : s.write_buffer_to_disk with
      | error ep => rw [hf] at h; obtain ⟨e, s3⟩ := ep; cases h
      | ok s3 =>
        rw [hf] at h
        obtain ⟨a1, a2, a3, a4, a5, a6⟩ := ih s3 h
        rcases flush_ok_elim s s3 hf with ⟨_, rfl⟩ | ⟨_, _, rfl⟩
        · exact ⟨a1, a2, a3, a4, a5, a6⟩
        · exact ⟨a1, a2, a3, a4, a5, a6⟩

theorem flushLoop_terminates (s : PointCloudWriter)
    (hcap : 1 ≤ s.max_points_per_packet) (fuel : Nat)
    (hfuel : s.buffer.length ≤ fuel) :
    PointCloudWriter.flushLoop fuel s ≠ .spin := by
  induction fuel generalizing s with
  | zero =>
    have hb : s.buffer = [] := by
      cases hbuf : s.buffer
      · rfl
      · rw [hbuf] at hfuel; simp at hfuel
    rw [flushLoop_empty s hb 0]
    intro hc
    cases hc
  | succ fuel ih =>
    by_cases he : s.buffer.isEmpty
    · rw [flushLoop_empty s (List.isEmpty_iff.mp he) (fuel + 1)]
      intro hc
      cases hc
    · simp only [PointCloudWriter.flushLoop, if_neg he]
      cases hf : s.write_buffer_to_disk with
      | error ep =>
        obtain ⟨e, s3⟩ := ep
        intro hc
        cases hc
      | ok s3 =>
        have hne : s.buffer.length ≠ 0 := by
          intro hc
          exact he (List.isEmpty_iff.mpr (List.length_eq_zero.mp hc))
        rcases flush_ok_elim s s3 hf with ⟨hk0, rfl⟩ | ⟨hk0, _, rfl⟩
        · exfalso
          omega
        · apply ih
          · exact hcap
          · show (s.buffer.drop (min s.max_points_per_packet s.buffer.length)).length ≤ fuel
            rw [List.length_drop]
            omega

/-! The session invariant feeding the section-length claim. -/

theorem new_ok_elim (w0 : PagedWriter) (pcs0 : List PointCloud) (g : String)
    (proto : List Record) (s : PointCloudWriter)
    (h : PointCloudWriter.new w0 pcs0 g proto = .ok s) :
    pointBitSize proto ≠ 0 ∧
    s = { writer := w0.writeChunk (.sectionHeader
            ⟨w0.pos + CompressedVectorSectionHeader.SIZE,
             CompressedVectorSectionHeader.SIZE⟩),
          pointclouds := pcs0, guid := g, section_offset := w0.pos,
          section_header := ⟨w0.pos + CompressedVectorSectionHeader.SIZE,
            CompressedVectorSectionHeader.SIZE⟩,
          prototype := proto, point_count := 0, buffer := [],
          max_points_per_packet := 64000 * 8 / pointBitSize proto } := by
  simp only [PointCloudWriter.new, PagedWriter.physical_position] at h
  by_cases hz : pointBitSize proto = 0
  · rw [if_pos hz] at h
    cases h
  · rw [if_neg hz] at h
    injection h with h2
    exact ⟨hz, h2.symm⟩

theorem new_SecInv (w0 : PagedWriter) (pcs0 : List PointCloud) (g : String)
    (proto : List Record) (s : PointCloudWriter)
    (h : PointCloudWriter.new w0 pcs0 g proto = .ok s) : SecInv w0 s := by
  obtain ⟨hz, rfl⟩ := new_ok_elim w0 pcs0 g proto s h
  refine ⟨rfl, [], ?_, ?_, by simp⟩
  · rw [packetsOf_writeChunk_section]
    simp
  · show CompressedVectorSectionHeader.SIZE
      = (CompressedVectorSectionHeader.SIZE + natSum []) % U64
    rw [natSum_nil]
    unfold CompressedVectorSectionHeader.SIZE U64
    norm_num

theorem flush_ok_SecInv (w0 : PagedWriter) (s s2 : PointCloudWriter)
    (h : s.write_buffer_to_disk = .ok s2) (hi : SecInv w0 s) : SecInv w0 s2 := by
  obtain ⟨hoff, pkts, hpk, hsl, hbound⟩ := hi
  rcases flush_ok_elim s s2 h with ⟨_, rfl⟩ | ⟨_, hpl, rfl⟩
  · exact ⟨hoff, pkts, hpk, hsl, hbound⟩
  · refine ⟨hoff, pkts ++ [packetHeaderFor s.prototype
      (min s.max_points_per_packet s.buffer.length)], ?_, ?_, ?_⟩
    · show packetsOf (emitPacket s.writer _ _ _).log = _
      rw [packetsOf_emitPacket, hpk, List.append_assoc]
    · show (s.section_header.section_length +
          packetLengthFor s.prototype
            (min s.max_points_per_packet s.buffer.length)) % U64 = _
      rw [hsl, Nat.mod_add_mod, List.map_append, natSum_append]
      simp only [List.map_cons, List.map_nil, packetHeaderFor]
      rw [natSum_cons, natSum_nil]
      congr 1
      omega
    · intro hp hmem
      rcases List.mem_append.mp hmem with hmem1 | hmem2
      · exact hbound hp hmem1
      · have : hp = packetHeaderFor s.prototype
            (min s.max_points_per_packet s.buffer.length) := by
          simpa using hmem2
        rw [this]
        exact ⟨hpl, roundUp4_mod _⟩

theorem add_point_SecInv (w0 : PagedWriter) (s : PointCloudWriter) (p : RawPoint)
    (s2 : PointCloudWriter) (h : s.add_point p = .ok s2) (hi : SecInv w0 s) :
    SecInv w0 s2 := by
  obtain ⟨hoff, pkts, hpk, hsl, hbound⟩ := hi
  simp only [PointCloudWriter.add_point] at h
  split at h
  · exact flush_ok_SecInv w0 _ s2 h ⟨hoff, pkts, hpk, hsl, hbound⟩
  · injection h with h2
    rw [← h2]
    exact ⟨hoff, pkts, hpk, hsl, hbound⟩

theorem flushLoop_SecInv (w0 : PagedWriter) (fuel : Nat) (s s2 : PointCloudWriter)
    (h : PointCloudWriter.flushLoop fuel s = .ok s2) (hi : SecInv w0 s) :
    SecInv w0 s2 := by
  induction fuel generalizing s with
  | zero =>
    simp only [PointCloudWriter.flushLoop] at h
    by_cases he : s.buffer.isEmpty
    · rw [if_pos he] at h
      injection h with h2
      rw [h2] at hi
      exact hi
    · rw [if_neg he] at h
      cases h
  | succ fuel ih =>
    simp only [PointCloudWriter.flushLoop] at h
    by_cases he : s.buffer.isEmpty
    · rw [if_pos he] at h
      injection h with h2
      rw [h2] at hi
      exact hi
    · rw [if_neg he] at h
      cases hf : s.write_buffer_to_disk with
      | error ep => rw [hf] at h; obtain ⟨e, s3⟩ := ep; cases h
      | ok s3 =>
        rw [hf] at h
        exact ih s3 h (flush_ok_SecInv w0 s s3 hf hi)

theorem finishFinalize_SecInv (w0 : PagedWriter) (s : PointCloudWriter)
    (hi : SecInv w0 s) : SecInv w0 s.finishFinalize := by
  obtain ⟨hoff, pkts, hpk, hsl, hbound⟩ := hi
  refine ⟨hoff, pkts, ?_, hsl, hbound⟩
  show packetsOf (((s.writer.physical_seek s.section_offset).writeChunk
      (.sectionHeader s.section_header)).physical_seek
        (s.writer.physical_position)).log = _
  simp only [PagedWriter.physical_seek]
  rw [show (({ s.writer with pos := s.section_offset } :
      PagedWriter).writeChunk (.sectionHeader s.section_header)).log
    = s.writer.log ++ [(s.section_offset, WChunk.sectionHeader s.section_header)]
    from rfl]
  rw [packetsOf_append, hpk]
  simp [packetsOf, List.filterMap_cons, pktOfChunk]

theorem finalizeWithFuel_SecInv (w0 : PagedWriter) (fuel : Nat)
    (s s2 : PointCloudWriter)
    (h : PointCloudWriter.finalizeWithFuel fuel s = some (.ok s2))
    (hi : SecInv w0 s) : SecInv w0 s2 := by
  unfold PointCloudWriter.finalizeWithFuel at h
  cases hl : s.flushLoop fuel with
  | spin => rw [hl] at h; cases h
  | err e s3 => rw [hl] at h; simp at h
  | ok s3 =>
    rw [hl] at h
    simp only [Option.some.injEq] at h
    injection h with h2
    rw [← h2]
    exact finishFinalize_SecInv w0 s3 (flushLoop_SecInv w0 fuel s s3 hl hi)

theorem reachable_SecInv (w0 : PagedWriter) (pcs0 : List PointCloud) (g : String)
    (proto : List Record) (s : PointCloudWriter)
    (h : Reachable w0 pcs0 g proto s) : SecInv w0 s := by
  induction h with
  | init s hnew => exact new_SecInv w0 pcs0 g proto s hnew
  | add s p s2 _ hstep ih => exact add_point_SecInv w0 s p s2 hstep ih
  | fin s fuel s2 _ hstep ih => exact finalizeWithFuel_SecInv w0 fuel s s2 hstep ih

/-! Divergence of the flush loop on a fixed point of the flush. -/

theorem spin_of_fixed (s : PointCloudWriter)
    (hfix : s.write_buffer_to_disk = .ok s) (hne : s.buffer ≠ []) :
    spinsForever s := by
  intro fuel
  have hei : ¬ s.buffer.isEmpty = true := fun hc => hne (List.isEmpty_iff.mp hc)
  induction fuel with
  | zero =>
    simp only [PointCloudWriter.flushLoop]
    rw [if_neg hei]
  | succ fuel ih =>
    simp only [PointCloudWriter.flushLoop]
    rw [if_neg hei, hfix]
    exact ih

/-! The missing-field error path of the encode loop. -/

theorem encodePoints_err_missing (proto : List Record) :
    ∀ (k : Nat) (buf : List RawPoint) (bufs0 : List ByteStreamOutBuffer),
    k ≤ buf.length → bufs0.length = proto.length →
    ((buf.take k).any (missesField proto)) = true →
    ∃ nm rest, encodePoints proto k buf bufs0 = .error (.missingField nm, rest) ∧
      nm ∈ proto.map Record.name ∧
      ∃ p ∈ buf.take k, RawPoint.get p nm = none := by
  intro k
  induction k with
  | zero => intro buf bufs0 _ _ hm; simp at hm
  | succ k ih =>
    intro buf bufs0 hk hlen hm
    cases buf with
    | nil => simp at hk
    | cons p rest0 =>
      rw [List.take_succ_cons, List.any_cons] at hm
      cases hmp : missesField proto p with
      | true =>
        obtain ⟨nm, herr, hmem, hget⟩ := encodePoint_err_missing proto bufs0 p hlen hmp
        refine ⟨nm, rest0, ?_, hmem, p, ?_, hget⟩
        · simp only [encodePoints, herr]
        · rw [List.take_succ_cons]
          exact List.mem_cons_self _ _
      | false =>
        have hm2 : ((rest0.take k).any (missesField proto)) = true := by
          rw [hmp] at hm
          simpa using hm
        have hk2 : k ≤ rest0.length := by simpa using hk
        obtain ⟨nm, rest, herr, hmem, p2, hp2, hget⟩ := ih rest0
          (List.zipWith (fun r b => ⟨b.bits + r.data_type.bit_size⟩) proto bufs0)
          hk2 (by rw [List.length_zipWith, hlen]; omega) hm2
        refine ⟨nm, rest, ?_, hmem, p2, ?_, hget⟩
        · simp only [encodePoints, encodePoint_ok_of proto bufs0 p hlen hmp, herr]
        · rw [List.take_succ_cons]
          exact List.mem_cons_of_mem _ hp2

/-! Claim theorems. -/

/-- Claim C8: invoking the packet flush while the pending queue is empty is
a no-op: it returns success without issuing any storage write, and the
session state (stream, section length accumulator, queue, point count)
is returned unchanged. -/
theorem flush_empty_queue_noop (s : PointCloudWriter) (h : s.buffer = []) :
    s.write_buffer_to_disk = .ok s :=
  flush_noop s (by rw [h]; simp)

theorem flush_empty_queue_noop_witness :
    s24.buffer = [] ∧ s24.write_buffer_to_disk = .ok s24 :=
  ⟨rfl, flush_empty_queue_noop s24 rfl⟩

/-- Claim C9: new divides 64000*8 by the prototype point bit size with no
guard: when the bit size is zero (empty prototype, or all fields of zero
width) the division panics, modelled as the panic error value; for every
positive bit size the open succeeds with capacity the quotient. -/
theorem new_unguarded_division (w : PagedWriter) (pcs : List PointCloud)
    (g : String) (proto : List Record) :
    (pointBitSize proto = 0 →
      PointCloudWriter.new w pcs g proto
        = .error (.panicErr "attempt to divide by zero")) ∧
    (0 < pointBitSize proto →
      ∃ s, PointCloudWriter.new w pcs g proto = .ok s ∧
        s.max_points_per_packet = 64000 * 8 / pointBitSize proto) := by
  constructor
  · intro hz
    simp [PointCloudWriter.new, hz]
  · intro hpos
    have hz : ¬ pointBitSize proto = 0 := by omega
    cases hn : PointCloudWriter.new w pcs g proto with
    | error e =>
      exfalso
      simp only [PointCloudWriter.new] at hn
      rw [if_neg hz] at hn
      cases hn
    | ok s =>
      refine ⟨s, rfl, ?_⟩
      obtain ⟨_, rfl⟩ := new_ok_elim w pcs g proto s hn
      rfl

theorem new_unguarded_division_witness :
    PointCloudWriter.new wEmpty [] "g" ([] : List Record)
      = .error (.panicErr "attempt to divide by zero") ∧
    ∃ s, PointCloudWriter.new wEmpty [] "g" proto24 = .ok s ∧
      s.max_points_per_packet = 64000 * 8 / pointBitSize proto24 :=
  ⟨(new_unguarded_division wEmpty [] "g" []).1 rfl,
   (new_unguarded_division wEmpty [] "g" proto24).2 (by decide)⟩

/-- Claim C2 (amended): whenever the packet capacity is at least one point
(equivalently, the prototype point bit size is positive and at most
512000), the finalize flush loop terminates within one iteration per
pending point, and whenever it exits successfully the pending queue is
empty.  As stated over every prototype the claim fails: capacity-zero
prototypes make the loop spin forever (see the counterexample). -/
theorem flush_loop_terminates_of_capacity_pos (s : PointCloudWriter)
    (hcap : 1 ≤ s.max_points_per_packet) :
    PointCloudWriter.flushLoop s.buffer.length s ≠ .spin ∧
    ∀ s2, PointCloudWriter.flushLoop s.buffer.length s = .ok s2 →
      s2.buffer = [] :=
  ⟨flushLoop_terminates s hcap s.buffer.length (le_refl _),
   fun s2 h => flushLoop_ok_buffer s.buffer.length s s2 h⟩

theorem flush_loop_terminates_witness :
    1 ≤ s24one.max_points_per_packet ∧
    PointCloudWriter.flushLoop s24one.buffer.length s24one ≠ .spin :=
  ⟨by decide, (flush_loop_terminates_of_capacity_pos s24one (by decide)).1⟩

/-- Claim C2 counterexample: a one-field prototype of bit size 512001 is
accepted by new with capacity 0; add_point then leaves the point in the
queue (the triggered flush is a no-op), the flush is a fixed point of the
loop body while the queue is nonempty, and the finalize flush loop spins
for every fuel bound - the source while loop never terminates. -/
theorem flush_loop_diverges_zero_capacity :
    PointCloudWriter.new wEmpty [] "g" protoHuge = .ok sHuge0 ∧
    sHuge0.max_points_per_packet = 0 ∧
    PointCloudWriter.add_point sHuge0 ptX = .ok sHuge1 ∧
    sHuge1.buffer ≠ [] ∧
    sHuge1.write_buffer_to_disk = .ok sHuge1 ∧
    spinsForever sHuge1 := by
  refine ⟨by decide, by decide, by decide, by decide, by decide, ?_⟩
  exact spin_of_fixed sHuge1 (by decide) (by decide)

/-- Claim C3: if one of the points popped for a packet lacks a value for a
prototype field, the flush fails with MissingField naming a prototype
field that an affected popped point actually lacks, and not one byte of
the packet reaches the storage stream (the stream is exactly as before
the call; all storage writes happen only after every point is encoded). -/
theorem flush_missing_field_aborts (s : PointCloudWriter)
    (h : ((s.buffer.take (min s.max_points_per_packet s.buffer.length)).any
      (missesField s.prototype)) = true) :
    ∃ nm s2, s.write_buffer_to_disk = .error (.missingField nm, s2) ∧
      s2.writer = s.writer ∧ nm ∈ s.prototype.map Record.name ∧
      ∃ p ∈ s.buffer.take (min s.max_points_per_packet s.buffer.length),
        RawPoint.get p nm = none := by
  have hk0 : min s.max_points_per_packet s.buffer.length ≠ 0 := by
    intro hc
    rw [hc] at h
    simp at h
  obtain ⟨nm, rest, herr, hmem, p, hp, hget⟩ :=
    encodePoints_err_missing s.prototype
      (min s.max_points_per_packet s.buffer.length) s.buffer
      (s.prototype.map fun _ => ByteStreamOutBuffer.new)
      (Nat.min_le_right _ _) (by simp) h
  refine ⟨nm, { s with buffer := rest }, ?_, rfl, hmem, p, hp, hget⟩
  simp only [PointCloudWriter.write_buffer_to_disk]
  rw [if_neg hk0, herr]

theorem flush_missing_field_witness :
    ((sAB.buffer.take (min sAB.max_points_per_packet sAB.buffer.length)).any
      (missesField sAB.prototype)) = true ∧
    ∃ nm s2, sAB.write_buffer_to_disk = .error (.missingField nm, s2) ∧
      s2.writer = sAB.writer ∧ nm ∈ sAB.prototype.map Record.name ∧
      ∃ p ∈ sAB.buffer.take (min sAB.max_points_per_packet sAB.buffer.length),
        RawPoint.get p nm = none :=
  ⟨by decide, flush_missing_field_aborts sAB (by decide)⟩

/-- Claim C4: when the computed packet length of a flush (header size plus
two bytes per field plus the drained buffer sizes, rounded up to a
multiple of 4) exceeds 65535, the flush fails with InternalError and the
packet is not written (the stream is unchanged, only the popped points
are consumed); and every packet a successful flush appends to the stream
has packet_length at most 65535. -/
theorem packet_length_ceiling_enforced :
    (∀ (s : PointCloudWriter) (k : Nat),
      min s.max_points_per_packet s.buffer.length = k → k ≠ 0 →
      ((s.buffer.take k).any (missesField s.prototype)) = false →
      65535 < packetLengthFor s.prototype k →
      s.write_buffer_to_disk
        = .error (.internalError "Invalid data packet length",
            { s with buffer := s.buffer.drop k })) ∧
    (∀ s s2 : PointCloudWriter, s.write_buffer_to_disk = .ok s2 →
      ∀ hp ∈ packetsOf s2.writer.log,
        hp ∈ packetsOf s.writer.log ∨ hp.packet_length ≤ 65535) := by
  constructor
  · intro s k hk hk0 hm hpl
    have hkle : k ≤ s.buffer.length := by
      rw [← hk]
      exact Nat.min_le_right _ _
    simp only [PointCloudWriter.write_buffer_to_disk, hk]
    rw [if_neg hk0]
    rw [freshBufs_eq, encodePoints_ok_of s.prototype k 0 s.buffer hkle hm]
    change s.finishPacket (bufsAfter s.prototype (0 + k)) (s.buffer.drop k) = _
    rw [Nat.zero_add]
    simp only [PointCloudWriter.finishPacket, bufsAfter_lens]
    rw [if_pos (by unfold packetLengthFor at hpl; omega)]
  · intro s s2 h hp hmem
    rcases flush_ok_elim s s2 h with ⟨_, rfl⟩ | ⟨_, hpl, rfl⟩
    · exact Or.inl hmem
    · have hpk : packetsOf (flushedState s
          (min s.max_points_per_packet s.buffer.length)).writer.log
          = packetsOf s.writer.log ++
            [packetHeaderFor s.prototype
              (min s.max_points_per_packet s.buffer.length)] := by
        show packetsOf (emitPacket s.writer _ _ _).log = _
        exact packetsOf_emitPacket _ _ _ _
      rw [hpk] at hmem
      rcases List.mem_append.mp hmem with h1 | h2
      · exact Or.inl h1
      · right
        have heq : hp = packetHeaderFor s.prototype
            (min s.max_points_per_packet s.buffer.length) := by
          simpa using h2
        rw [heq]
        exact hpl

set_option maxRecDepth 100000 in
theorem packet_length_ceiling_witness :
    min sWide.max_points_per_packet sWide.buffer.length = 1 ∧
    ((sWide.buffer.take 1).any (missesField sWide.prototype)) = false ∧
    65535 < packetLengthFor sWide.prototype 1 ∧
    sWide.write_buffer_to_disk
      = .error (.internalError "Invalid data packet length",
          { sWide with buffer := sWide.buffer.drop 1 }) :=
  ⟨by decide, by decide, by decide,
   packet_length_ceiling_enforced.1 sWide 1 (by decide) (by decide)
     (by decide) (by decide)⟩

/-! Structural facts about the finalize tail and the enqueue iteration. -/

theorem finishFinalize_log (s : PointCloudWriter) :
    s.finishFinalize.writer.log = s.writer.log ++
      [(s.section_offset, WChunk.sectionHeader s.section_header)] ∧
    s.finishFinalize.writer.pos = s.writer.pos ∧
    s.finishFinalize.pointclouds = s.pointclouds ++
      [{ guid := s.guid, records := s.point_count,
         file_offset := s.section_offset, prototype := s.prototype }] ∧
    s.finishFinalize.buffer = s.buffer ∧
    s.finishFinalize.section_header = s.section_header ∧
    s.finishFinalize.section_offset = s.section_offset ∧
    s.finishFinalize.guid = s.guid ∧ s.finishFinalize.prototype = s.prototype ∧
    s.finishFinalize.point_count = s.point_count ∧
    s.finishFinalize.max_points_per_packet = s.max_points_per_packet :=
  ⟨rfl, rfl, rfl, rfl, rfl, rfl, rfl, rfl, rfl, rfl⟩

theorem finalizeWithFuel_ok_elim (fuel : Nat) (s s2 : PointCloudWriter)
    (h : PointCloudWriter.finalizeWithFuel fuel s = some (.ok s2)) :
    ∃ s3, s.flushLoop fuel = .ok s3 ∧ s2 = s3.finishFinalize := by
  unfold PointCloudWriter.finalizeWithFuel at h
  cases hl : s.flushLoop fuel with
  | spin => rw [hl] at h; cases h
  | err e s3 => rw [hl] at h; simp at h
  | ok s3 =>
    rw [hl] at h
    simp only [Option.some.injEq] at h
    injection h with h2
    exact ⟨s3, rfl, h2.symm⟩

theorem addAll_append (l1 l2 : List RawPoint) (s : PointCloudWriter) :
    s.addAll (l1 ++ l2) = match s.addAll l1 with
      | .ok s2 => s2.addAll l2
      | .error e => .error e := by
  induction l1 generalizing s with
  | nil => simp [PointCloudWriter.addAll]
  | cons p ps ih =>
    simp only [List.cons_append, PointCloudWriter.addAll]
    cases h : s.add_point p with
    | error e => rfl
    | ok s2 => exact ih s2

theorem addAll_no_flush (ps : List RawPoint) :
    ∀ (s : PointCloudWriter), s.point_count < U64 →
    s.buffer.length + ps.length < s.max_points_per_packet →
    s.addAll ps = .ok { s with
      buffer := s.buffer ++ ps,
      point_count := (s.point_count + ps.length) % U64 } := by
  induction ps with
  | nil =>
    intro s hpc hlt
    simp only [PointCloudWriter.addAll]
    rw [show s.buffer ++ [] = s.buffer from by simp,
      show (s.point_count + List.length [] : Nat) = s.point_count from by simp,
      Nat.mod_eq_of_lt hpc]
  | cons p ps ih =>
    intro s hpc hlt
    have hstep : s.add_point p = .ok { s with
        buffer := s.buffer ++ [p],
        point_count := (s.point_count + 1) % U64 } := by
      simp only [PointCloudWriter.add_point]
      rw [if_neg (show ¬ s.max_points_per_packet ≤ (s.buffer ++ [p]).length from by
        simp only [List.length_append, List.length_cons] at hlt ⊢
        simp
        omega)]
    rw [show PointCloudWriter.addAll s (p :: ps) = (match s.add_point p with
        | .error e => .error e
        | .ok s2 => PointCloudWriter.addAll s2 ps) from rfl]
    rw [hstep]
    show PointCloudWriter.addAll { s with
        buffer := s.buffer ++ [p],
        point_count := (s.point_count + 1) % U64 } ps = _
    rw [ih { s with
        buffer := s.buffer ++ [p],
        point_count := (s.point_count + 1) % U64 }
      (Nat.mod_lt _ (by unfold U64; norm_num))
      (by simp only [List.length_append, List.length_cons] at hlt ⊢; simp; omega)]
    refine congrArg Except.ok ?_
    simp only []
    have hb : (s.buffer ++ [p]) ++ ps = s.buffer ++ p :: ps := by
      rw [List.append_assoc]
      rfl
    have hc : ((s.point_count + 1) % U64 + ps.length) % U64
        = (s.point_count + (p :: ps).length) % U64 := by
      rw [Nat.mod_add_mod, List.length_cons]
      congr 1
      omega
    rw [hb, hc]

theorem any_eq_false_of_all (proto : List Record) (l : List RawPoint)
    (h : ∀ p ∈ l, missesField proto p = false) :
    (l.any (missesField proto)) = false := by
  induction l with
  | nil => rfl
  | cons p ps ih =>
    rw [List.any_cons, h p (List.mem_cons_self _ _),
      ih fun q hq => h q (List.mem_cons_of_mem _ hq)]
    rfl

/-- Claim C7: a session with zero enqueued points finalizes successfully:
the flush loop exits at once, zero packets are emitted, the header is
rewritten at the section start with the same value as the placeholder
(section_length equal to the header size), and the Finalized Section
Metadata record is still appended with point_count 0, the session guid,
the section offset and the prototype. -/
theorem finalize_zero_points (w0 : PagedWriter) (pcs0 : List PointCloud)
    (g : String) (proto : List Record) (s0 : PointCloudWriter) (fuel : Nat)
    (hnew : PointCloudWriter.new w0 pcs0 g proto = .ok s0) :
    PointCloudWriter.finalizeWithFuel fuel s0 = some (.ok s0.finishFinalize) ∧
    packetsOf s0.finishFinalize.writer.log = packetsOf w0.log ∧
    s0.finishFinalize.section_header.section_length
      = CompressedVectorSectionHeader.SIZE ∧
    s0.finishFinalize.writer.log = w0.log ++
      [(w0.pos, .sectionHeader ⟨w0.pos + CompressedVectorSectionHeader.SIZE,
          CompressedVectorSectionHeader.SIZE⟩),
       (w0.pos, .sectionHeader ⟨w0.pos + CompressedVectorSectionHeader.SIZE,
          CompressedVectorSectionHeader.SIZE⟩)] ∧
    s0.finishFinalize.pointclouds = pcs0 ++
      [{ guid := g, records := 0, file_offset := w0.pos, prototype := proto }] := by
  obtain ⟨hz, rfl⟩ := new_ok_elim w0 pcs0 g proto s0 hnew
  refine ⟨?_, ?_, rfl, ?_, rfl⟩
  · unfold PointCloudWriter.finalizeWithFuel
    rw [flushLoop_empty _ rfl fuel]
  · show packetsOf (w0.log ++ [(w0.pos, WChunk.sectionHeader _)]
      ++ [(w0.pos, WChunk.sectionHeader _)]) = packetsOf w0.log
    rw [packetsOf_append, packetsOf_append]
    simp [packetsOf, List.filterMap_cons, pktOfChunk]
  · show w0.log ++ [(w0.pos, WChunk.sectionHeader _)]
      ++ [(w0.pos, WChunk.sectionHeader _)] = _
    rw [List.append_assoc]
    rfl

theorem finalize_zero_points_witness :
    PointCloudWriter.finalizeWithFuel 0 s24 = some (.ok s24.finishFinalize) ∧
    s24.finishFinalize.section_header.section_length
      = CompressedVectorSectionHeader.SIZE ∧
    s24.finishFinalize.pointclouds =
      [{ guid := "g", records := 0, file_offset := 0, prototype := proto24 }] := by
  have h := finalize_zero_points wEmpty [] "g" proto24 s24 0 (by decide)
  refine ⟨h.1, h.2.2.1, ?_⟩
  have h2 := h.2.2.2.2
  simpa using h2

/-- Claim C10: the writer keeps no open/closed runtime state: after a
successful finalize the queue is empty, finalize may be called again and
every further call succeeds, rewrites the section header once more at
the section start, and appends another metadata record with the same
guid, offset, point count and prototype; add_point likewise still
accepts points after finalize. -/
theorem no_closed_state_enforced (s s2 : PointCloudWriter) (fuel : Nat)
    (h : PointCloudWriter.finalizeWithFuel fuel s = some (.ok s2)) :
    s2.buffer = [] ∧
    (∀ fuel2, PointCloudWriter.finalizeWithFuel fuel2 s2
      = some (.ok s2.finishFinalize)) ∧
    s2.finishFinalize.pointclouds = s2.pointclouds ++
      [{ guid := s2.guid, records := s2.point_count,
         file_offset := s2.section_offset, prototype := s2.prototype }] ∧
    s2.finishFinalize.writer.log = s2.writer.log ++
      [(s2.section_offset, WChunk.sectionHeader s2.section_header)] ∧
    (∀ p : RawPoint, 1 < s2.max_points_per_packet →
      s2.add_point p = .ok { s2 with
        buffer := [p],
        point_count := (s2.point_count + 1) % U64 }) ∧
    s2.guid = s.guid ∧ s2.section_offset = s.section_offset ∧
    s2.prototype = s.prototype := by
  obtain ⟨s3, hl, rfl⟩ := finalizeWithFuel_ok_elim fuel s s2 h
  have hb3 : s3.buffer = [] := flushLoop_ok_buffer fuel s s3 hl
  have hb : s3.finishFinalize.buffer = [] := by
    rw [(finishFinalize_log s3).2.2.2.1, hb3]
  obtain ⟨hg, hoff, hproto, _, _, _⟩ := flushLoop_preserves fuel s s3 hl
  refine ⟨hb, ?_, (finishFinalize_log _).2.2.1, (finishFinalize_log _).1, ?_, ?_, ?_, ?_⟩
  · intro fuel2
    unfold PointCloudWriter.finalizeWithFuel
    rw [flushLoop_empty _ hb fuel2]
  · intro p hcap
    simp only [PointCloudWriter.add_point]
    rw [if_neg (by rw [hb]; simpa using hcap)]
    rw [hb]
    rfl
  · rw [(finishFinalize_log s3).2.2.2.2.2.2.1, hg]
  · rw [(finishFinalize_log s3).2.2.2.2.2.1, hoff]
  · rw [(finishFinalize_log s3).2.2.2.2.2.2.2.1, hproto]

theorem no_closed_state_witness :
    s24.finishFinalize.buffer = [] ∧
    PointCloudWriter.finalizeWithFuel 0 s24.finishFinalize
      = some (.ok s24.finishFinalize.finishFinalize) ∧
    PointCloudWriter.add_point s24.finishFinalize ptX
      = .ok { s24.finishFinalize with
          buffer := [ptX],
          point_count := (s24.finishFinalize.point_count + 1) % U64 } := by
  have h := no_closed_state_enforced s24 s24.finishFinalize 0 (by decide)
  exact ⟨h.1, h.2.1 0, h.2.2.2.2.1 ptX (by decide)⟩

/-- Claim C5: every packet a flush writes has a packet length that is a
multiple of 4; the declared byte stream sizes cover only the payload, and
when the unrounded length pl0 is not 4-aligned the difference up to
roundUp4 pl0 is emitted as one trailing pad write after the payload
streams (provided the stream is 4-aligned when the packet starts, as it
always is after the 32-byte header and previous aligned packets), so the
stream advances by exactly packet_length bytes. -/
theorem packet_alignment_padding (s s2 : PointCloudWriter)
    (hok : s.write_buffer_to_disk = .ok s2)
    (hne : min s.max_points_per_packet s.buffer.length ≠ 0) :
    ∃ k lens pl0,
      k = min s.max_points_per_packet s.buffer.length ∧
      lens = packetLens s.prototype k ∧
      pl0 = DataPacketHeader.SIZE + s.prototype.length * 2 + natSum lens ∧
      packetsOf s2.writer.log
        = packetsOf s.writer.log ++ [packetHeaderFor s.prototype k] ∧
      (packetHeaderFor s.prototype k).packet_length = roundUp4 pl0 ∧
      (packetHeaderFor s.prototype k).packet_length % 4 = 0 ∧
      (s.writer.pos % 4 = 0 →
        s2.writer.log = s.writer.log ++
          chunkSeq s.writer.pos
            (WChunk.packetHeader (packetHeaderFor s.prototype k) ::
              ((lens.map fun l => l % 65536).map WChunk.sizeEntry ++
                lens.map WChunk.stream)) ++
          (if pl0 % 4 = 0 then []
           else [(s.writer.pos + pl0, WChunk.pad (roundUp4 pl0 - pl0))]) ∧
        s2.writer.pos = s.writer.pos + roundUp4 pl0) := by
  rcases flush_ok_elim s s2 hok with ⟨hk0, _⟩ | ⟨_, hpl, rfl⟩
  · exact absurd hk0 hne
  · set k := min s.max_points_per_packet s.buffer.length with hk
    set lens := packetLens s.prototype k with hlens
    set pl0 := DataPacketHeader.SIZE + s.prototype.length * 2 + natSum lens with hpl0
    refine ⟨k, lens, pl0, rfl, rfl, rfl, ?_, rfl, roundUp4_mod _, ?_⟩
    · show packetsOf (emitPacket s.writer _ _ _).log = _
      exact packetsOf_emitPacket _ _ _ _
    · intro hpos4
      have hszlen : (lens.map fun l => l % 65536).length = s.prototype.length := by
        rw [List.length_map, hlens]
        unfold packetLens
        rw [List.length_map]
      have hemit := emitPacket_spec s.writer (packetHeaderFor s.prototype k)
        (lens.map fun l => l % 65536) lens (s.writer.pos + pl0)
        (by rw [hszlen, hpl0]; omega)
      have hmod : (s.writer.pos + pl0) % 4 = pl0 % 4 := by omega
      constructor
      · show (emitPacket s.writer (packetHeaderFor s.prototype k)
            (lens.map fun l => l % 65536) lens).log = _
        rw [hemit]
        simp only [hmod]
        by_cases hc : pl0 % 4 = 0
        · rw [if_pos hc, if_pos hc]
        · rw [if_neg hc, if_neg hc]
          have h4 : 4 - pl0 % 4 = roundUp4 pl0 - pl0 := by
            unfold roundUp4
            rw [if_neg hc]
            omega
          rw [h4]
      · show (emitPacket s.writer (packetHeaderFor s.prototype k)
            (lens.map fun l => l % 65536) lens).pos = _
        rw [hemit]
        simp only [hmod]
        unfold roundUp4
        by_cases hc : pl0 % 4 = 0
        · rw [if_pos hc, if_pos hc]
        · rw [if_neg hc, if_neg hc]
          omega

theorem packet_alignment_witness :
    s24one.write_buffer_to_disk = .ok (flushedState s24one 1) ∧
    s24one.writer.pos % 4 = 0 ∧
    ∃ k lens pl0,
      k = min s24one.max_points_per_packet s24one.buffer.length ∧
      lens = packetLens s24one.prototype k ∧
      pl0 = DataPacketHeader.SIZE + s24one.prototype.length * 2 + natSum lens ∧
      packetsOf (flushedState s24one 1).writer.log
        = packetsOf s24one.writer.log ++ [packetHeaderFor s24one.prototype k] ∧
      (packetHeaderFor s24one.prototype k).packet_length = roundUp4 pl0 ∧
      (packetHeaderFor s24one.prototype k).packet_length % 4 = 0 ∧
      (s24one.writer.pos % 4 = 0 →
        (flushedState s24one 1).writer.log = s24one.writer.log ++
          chunkSeq s24one.writer.pos
            (WChunk.packetHeader (packetHeaderFor s24one.prototype k) ::
              ((lens.map fun l => l % 65536).map WChunk.sizeEntry ++
                lens.map WChunk.stream)) ++
          (if pl0 % 4 = 0 then []
           else [(s24one.writer.pos + pl0, WChunk.pad (roundUp4 pl0 - pl0))]) ∧
        (flushedState s24one 1).writer.pos = s24one.writer.pos + roundUp4 pl0) :=
  ⟨by decide, by decide,
   packet_alignment_padding s24one (flushedState s24one 1) (by decide) (by decide)⟩

/-- Claim C1: for every session reachable through the public interface,
after a successful finalize the section header backpatched at the section
start (the last storage write) carries a section_length equal to the
header size plus the sum of the packet_length values of every packet the
session wrote, whenever that sum does not wrap the 64-bit accumulator. -/
theorem finalize_section_length_eq (w0 : PagedWriter) (pcs0 : List PointCloud)
    (g : String) (proto : List Record) (s s2 : PointCloudWriter) (fuel : Nat)
    (hr : Reachable w0 pcs0 g proto s)
    (hf : PointCloudWriter.finalizeWithFuel fuel s = some (.ok s2))
    (hbound : CompressedVectorSectionHeader.SIZE +
      natSum ((sessionPackets w0.log s2.writer.log).map
        DataPacketHeader.packet_length) < U64) :
    s2.writer.log.getLast? = some (s2.section_offset,
      WChunk.sectionHeader s2.section_header) ∧
    s2.section_header.section_length
      = CompressedVectorSectionHeader.SIZE +
        natSum ((sessionPackets w0.log s2.writer.log).map
          DataPacketHeader.packet_length) := by
  have hr2 : Reachable w0 pcs0 g proto s2 := Reachable.fin s fuel s2 hr hf
  obtain ⟨hoff, pkts, hpk, hsl, hbound2⟩ := reachable_SecInv w0 pcs0 g proto s2 hr2
  have hsess : sessionPackets w0.log s2.writer.log = pkts := by
    unfold sessionPackets
    rw [hpk]
    exact List.drop_left _ _
  rw [hsess] at hbound ⊢
  refine ⟨?_, ?_⟩
  · obtain ⟨s3, hl, hs2⟩ := finalizeWithFuel_ok_elim fuel s s2 hf
    rw [hs2, (finishFinalize_log s3).1, List.getLast?_concat]
    rfl
  · rw [hsl]
    exact Nat.mod_eq_of_lt hbound

theorem finalize_section_length_witness :
    PointCloudWriter.finalizeWithFuel 1 s24one
      = some (.ok (flushedState s24one 1).finishFinalize) ∧
    (flushedState s24one 1).finishFinalize.section_header.section_length
      = CompressedVectorSectionHeader.SIZE +
        natSum ((sessionPackets wEmpty.log
          (flushedState s24one 1).finishFinalize.writer.log).map
            DataPacketHeader.packet_length) := by
  have hr : Reachable wEmpty [] "g" proto24 s24one :=
    Reachable.add s24 ptX s24one (Reachable.init s24 (by decide)) (by decide)
  exact ⟨by decide,
    (finalize_section_length_eq wEmpty [] "g" proto24 s24one
      ((flushedState s24one 1).finishFinalize) 1 hr (by decide) (by decide)).2⟩

theorem packetsOf_flushedState (s : PointCloudWriter) (k : Nat) :
    packetsOf (flushedState s k).writer.log
      = packetsOf s.writer.log ++ [packetHeaderFor s.prototype k] := by
  show packetsOf (emitPacket s.writer _ _ _).log = _
  exact packetsOf_emitPacket _ _ _ _

/-- Claim C6: for the single 32-bit-field prototype the capacity computed
at open is (64000*8)/32 = 16000 points; enqueueing fewer than 16000
points writes no packet and keeps them all queued; the 16000th enqueue
triggers exactly one automatic flush serializing all 16000 points into a
single packet of length 64008; a subsequent finalize writes no further
packet and backpatches the header (last storage write) to header size
plus that packet length. -/
theorem scenario_single_field_16000 (w0 : PagedWriter) (pcs0 : List PointCloud)
    (g : String) (s0 : PointCloudWriter) (ps : List RawPoint)
    (hnew : PointCloudWriter.new w0 pcs0 g proto32 = .ok s0)
    (hlen : ps.length = 16000)
    (hall : ∀ p ∈ ps, missesField proto32 p = false) :
    s0.max_points_per_packet = 16000 ∧
    (∀ k, k < 16000 → ∃ sk, s0.addAll (ps.take k) = .ok sk ∧
      packetsOf sk.writer.log = packetsOf w0.log ∧ sk.buffer = ps.take k) ∧
    ∃ s1, s0.addAll ps = .ok s1 ∧
      packetsOf s1.writer.log
        = packetsOf w0.log ++ [packetHeaderFor proto32 16000] ∧
      (packetHeaderFor proto32 16000).packet_length = 64008 ∧
      s1.buffer = [] ∧
      ∀ fuel, PointCloudWriter.finalizeWithFuel fuel s1
          = some (.ok s1.finishFinalize) ∧
        packetsOf s1.finishFinalize.writer.log
          = packetsOf w0.log ++ [packetHeaderFor proto32 16000] ∧
        s1.finishFinalize.writer.log.getLast?
          = some (s1.section_offset, WChunk.sectionHeader s1.section_header) ∧
        s1.finishFinalize.section_header.section_length
          = CompressedVectorSectionHeader.SIZE + 64008 := by
  obtain ⟨hz, hs0⟩ := new_ok_elim w0 pcs0 g proto32 s0 hnew
  have hcap : s0.max_points_per_packet = 16000 := by
    rw [hs0]
    show 64000 * 8 / pointBitSize proto32 = 16000
    decide
  have hbuf0 : s0.buffer = [] := by rw [hs0]
  have hpc0 : s0.point_count = 0 := by rw [hs0]
  have hproto : s0.prototype = proto32 := by rw [hs0]
  have hpk0 : packetsOf s0.writer.log = packetsOf w0.log := by
    rw [hs0]
    exact packetsOf_writeChunk_section _ _
  have hsl0 : s0.section_header.section_length
      = CompressedVectorSectionHeader.SIZE := by rw [hs0]
  have hpcU : s0.point_count < U64 := by
    rw [hpc0]
    unfold U64
    norm_num
  refine ⟨hcap, ?_, ?_⟩
  · intro k hk
    have htk : (ps.take k).length = k := by
      rw [List.length_take, hlen]
      omega
    have hs := addAll_no_flush (ps.take k) s0 hpcU
      (by rw [hbuf0, htk, hcap]; simpa using hk)
    refine ⟨_, hs, ?_, ?_⟩
    · exact hpk0
    · rw [hbuf0]
      rfl
  · rcases List.eq_nil_or_concat ps with hnil | ⟨qs, q, hps⟩
    · rw [hnil] at hlen
      simp at hlen
    · rw [List.concat_eq_append] at hps
      subst hps
      have hq : qs.length = 15999 := by
        rw [List.length_append, List.length_cons, List.length_nil] at hlen
        omega
      have hsq := addAll_no_flush qs s0 hpcU
        (by rw [hbuf0, hq, hcap]; simp)
      rw [addAll_append qs [q] s0, hsq]
      set sq : PointCloudWriter := { s0 with
        buffer := s0.buffer ++ qs,
        point_count := (s0.point_count + qs.length) % U64 } with hsqdef
      have hsqbuf : sq.buffer = qs := by
        show s0.buffer ++ qs = qs
        rw [hbuf0]
        rfl
      have hsqmax : sq.max_points_per_packet = 16000 := hcap
      set s2v : PointCloudWriter := { sq with
        buffer := sq.buffer ++ [q],
        point_count := (sq.point_count + 1) % U64 } with hs2vdef
      have hblen : s2v.buffer.length = 16000 := by
        show (sq.buffer ++ [q]).length = 16000
        rw [hsqbuf]
        simp [hq]
      have hs2vproto : s2v.prototype = proto32 := hproto
      have hflush : s2v.write_buffer_to_disk = .ok (flushedState s2v 16000) := by
        apply flush_ok_of s2v 16000
        · rw [hblen, show s2v.max_points_per_packet = 16000 from hsqmax]
          exact Nat.min_self _
        · decide
        · have ht : s2v.buffer.take 16000 = s2v.buffer := by
            rw [← hblen]
            exact List.take_length _
          rw [ht]
          apply any_eq_false_of_all
          intro p hp
          rw [hs2vproto]
          apply hall
          have hqq : s2v.buffer = qs ++ [q] := by
            show sq.buffer ++ [q] = qs ++ [q]
            rw [hsqbuf]
          rwa [hqq] at hp
        · rw [hs2vproto]
          decide
      have hadd : sq.add_point q = .ok (flushedState s2v 16000) := by
        simp only [PointCloudWriter.add_point]
        rw [if_pos (show sq.max_points_per_packet ≤ (sq.buffer ++ [q]).length from by
          rw [hsqmax, hsqbuf]
          simp [hq])]
        exact hflush
      have hpk1 : packetsOf (flushedState s2v 16000).writer.log
          = packetsOf w0.log ++ [packetHeaderFor proto32 16000] := by
        rw [packetsOf_flushedState]
        have hw : packetsOf s2v.writer.log = packetsOf w0.log := hpk0
        have hpr : packetHeaderFor s2v.prototype 16000
            = packetHeaderFor proto32 16000 := by rw [hs2vproto]
        rw [hw, hpr]
      have hb1 : (flushedState s2v 16000).buffer = [] := by
        show s2v.buffer.drop 16000 = []
        rw [← hblen]
        exact List.drop_length _
      have hsl1 : (flushedState s2v 16000).section_header.section_length
          = CompressedVectorSectionHeader.SIZE + 64008 := by
        have he : (flushedState s2v 16000).section_header.section_length
            = (s2v.section_header.section_length +
                packetLengthFor s2v.prototype 16000) % U64 := rfl
        rw [he, show s2v.section_header.section_length
            = CompressedVectorSectionHeader.SIZE from hsl0, hs2vproto]
        decide
      refine ⟨flushedState s2v 16000, ?_, hpk1, by decide, hb1, ?_⟩
      · show PointCloudWriter.addAll sq [q] = _
        simp only [PointCloudWriter.addAll]
        rw [hadd]
      · intro fuel
        refine ⟨?_, ?_, ?_, hsl1⟩
        · unfold PointCloudWriter.finalizeWithFuel
          rw [flushLoop_empty _ hb1 fuel]
        · rw [(finishFinalize_log _).1, packetsOf_append]
          rw [hpk1]
          simp [packetsOf, List.filterMap_cons, pktOfChunk]
        · rw [(finishFinalize_log _).1, List.getLast?_concat]

theorem scenario_single_field_witness :
    PointCloudWriter.new wEmpty [] "g" proto32 = .ok s32 ∧
    (List.replicate 16000 ptX).length = 16000 ∧
    s32.max_points_per_packet = 16000 :=
  ⟨by decide, by rw [List.length_replicate],
   (scenario_single_field_16000 wEmpty [] "g" s32 (List.replicate 16000 ptX)
     (by decide) (by rw [List.length_replicate])
     (fun p hp => by rw [List.eq_of_mem_replicate hp]; decide)).1⟩

end E57
